import Mathlib

/-!
# Verification of the context-window demo's chunking and API layer

The repository is a React frontend (token counting, text splitting,
simulated LLM processing) over a small backend.  The backend that
implements the chunker and the token estimator is not part of the
checked-in sources, so those two components are modelled from the
specification; the frontend request handlers are embedded from the
JSX sources.
-/

namespace ContextWindow

/-- Result of a split call: either a configuration error or the list of chunks. -/
inductive SplitResult where
  | invalidConfiguration : SplitResult
  | chunks (cs : List String) : SplitResult
deriving DecidableEq

/-- Modelled from the spec: the chunker's loop (the backend `server.py` is not
in the repository).  Starting at offset `start`, emit the substring
`[start, start + size)` clipped to the document, stop once the chunk's ending
offset reaches the document length, otherwise advance by `step`.  The `fuel`
argument only bounds the recursion; `buildChunksFuel_congr` below shows any
fuel of at least `doc.length - start` gives the same result. -/
def buildChunksFuel (doc : List Char) (size step : Nat) : Nat → Nat → List (List Char)
  | 0, _ => []
  | fuel + 1, start =>
    if start < doc.length then
      if start + size < doc.length then
        (doc.drop start).take size :: buildChunksFuel doc size step fuel (start + step)
      else
        [(doc.drop start).take size]
    else []

/-- Modelled from the spec: all chunks of `doc`, starting at offset 0. -/
def buildChunks (doc : List Char) (size step : Nat) : List (List Char) :=
  buildChunksFuel doc size step doc.length 0

/-- Modelled from the spec: the chunker.  Rejects `chunk_overlap ≥ chunk_size`
and `chunk_size ≤ 0` as an invalid configuration; otherwise produces the
overlapping chunks with advance step `chunk_size - chunk_overlap`. -/
def splitText (text : String) (chunk_size chunk_overlap : Int) : SplitResult :=
  if chunk_overlap ≥ chunk_size ∨ chunk_size ≤ 0 then
    SplitResult.invalidConfiguration
  else
    SplitResult.chunks
      ((buildChunks text.data chunk_size.toNat (chunk_size - chunk_overlap).toNat).map
        String.mk)

/-! ## Unfolding lemmas for the chunker loop -/

lemma buildChunksFuel_stop (doc : List Char) (size step fuel start : Nat)
    (hs : ¬ start < doc.length) :
    buildChunksFuel doc size step fuel start = [] := by
  cases fuel with
  | zero => rfl
  | succ f => simp only [buildChunksFuel, if_neg hs]

lemma buildChunksFuel_last (doc : List Char) (size step fuel start : Nat)
    (hs : start < doc.length) (hmid : ¬ start + size < doc.length) :
    buildChunksFuel doc size step (fuel + 1) start = [(doc.drop start).take size] := by
  simp only [buildChunksFuel, if_pos hs, if_neg hmid]

lemma buildChunksFuel_cons (doc : List Char) (size step fuel start : Nat)
    (hs : start < doc.length) (hmid : start + size < doc.length) :
    buildChunksFuel doc size step (fuel + 1) start =
      (doc.drop start).take size :: buildChunksFuel doc size step fuel (start + step) := by
  simp only [buildChunksFuel, if_pos hs, if_pos hmid]

lemma buildChunksFuel_ne_nil (doc : List Char) (size step fuel start : Nat)
    (hfuel : doc.length - start ≤ fuel) (hs : start < doc.length) :
    buildChunksFuel doc size step fuel start ≠ [] := by
  cases fuel with
  | zero => omega
  | succ f =>
    by_cases hmid : start + size < doc.length
    · rw [buildChunksFuel_cons doc size step f start hs hmid]
      simp
    · rw [buildChunksFuel_last doc size step f start hs hmid]
      simp

/-- A fuel of at least `doc.length - start` always yields the same chunk list:
the loop stops on its own, the fuel bound is not load-bearing. -/
lemma buildChunksFuel_congr (doc : List Char) (size step : Nat) (hstep : 0 < step) :
    ∀ fuel₁ fuel₂ start, doc.length - start ≤ fuel₁ → doc.length - start ≤ fuel₂ →
      buildChunksFuel doc size step fuel₁ start = buildChunksFuel doc size step fuel₂ start := by
  intro fuel₁
  induction fuel₁ with
  | zero =>
    intro fuel₂ start h1 h2
    have hs : ¬ start < doc.length := by omega
    rw [buildChunksFuel_stop doc size step 0 start hs,
      buildChunksFuel_stop doc size step fuel₂ start hs]
  | succ f ih =>
    intro fuel₂ start h1 h2
    by_cases hs : start < doc.length
    · cases fuel₂ with
      | zero => omega
      | succ g =>
        by_cases hmid : start + size < doc.length
        · rw [buildChunksFuel_cons doc size step f start hs hmid,
            buildChunksFuel_cons doc size step g start hs hmid,
            ih g (start + step) (by omega) (by omega)]
        · rw [buildChunksFuel_last doc size step f start hs hmid,
            buildChunksFuel_last doc size step g start hs hmid]
    · rw [buildChunksFuel_stop doc size step (f + 1) start hs,
        buildChunksFuel_stop doc size step fuel₂ start hs]

/-- The `k`-th chunk produced from offset `start` is the substring of length
`size` (clipped) starting at `start + k * step`. -/
lemma buildChunksFuel_get (doc : List Char) (size step : Nat) (hstep : 0 < step) :
    ∀ fuel start, doc.length - start ≤ fuel →
      ∀ k (h : k < (buildChunksFuel doc size step fuel start).length),
        (buildChunksFuel doc size step fuel start).get ⟨k, h⟩ =
          (doc.drop (start + k * step)).take size := by
  intro fuel
  induction fuel with
  | zero =>
    intro start hf k h
    rw [buildChunksFuel_stop doc size step 0 start (by omega)] at h
    exact absurd h (by simp)
  | succ f ih =>
    intro start hf
    by_cases hs : start < doc.length
    · by_cases hmid : start + size < doc.length
      · rw [buildChunksFuel_cons doc size step f start hs hmid]
        intro k h
        cases k with
        | zero => simp
        | succ j =>
          have hj : j < (buildChunksFuel doc size step f (start + step)).length := by
            simpa using h
          have hrec := ih (start + step) (by omega) j hj
          have ha : start + step + j * step = start + (j + 1) * step := by ring
          calc ((doc.drop start).take size ::
                  buildChunksFuel doc size step f (start + step)).get ⟨j + 1, h⟩
              = (buildChunksFuel doc size step f (start + step)).get ⟨j, hj⟩ := rfl
            _ = (doc.drop (start + step + j * step)).take size := hrec
            _ = (doc.drop (start + (j + 1) * step)).take size := by rw [ha]
      · rw [buildChunksFuel_last doc size step f start hs hmid]
        intro k h
        have hk : k = 0 := by simpa using h
        subst hk
        simp
    · rw [buildChunksFuel_stop doc size step (f + 1) start hs]
      intro k h
      exact absurd h (by simp)

/-- A chunk's ending offset reaches the document length exactly at the final
chunk: production stops there and only there. -/
lemma buildChunksFuel_lastIff (doc : List Char) (size step : Nat) (hstep : 0 < step)
    (hss : step ≤ size) :
    ∀ fuel start, doc.length - start ≤ fuel →
      ∀ k (h : k < (buildChunksFuel doc size step fuel start).length),
        (doc.length ≤ start + k * step + size ↔
          k + 1 = (buildChunksFuel doc size step fuel start).length) := by
  intro fuel
  induction fuel with
  | zero =>
    intro start hf k h
    rw [buildChunksFuel_stop doc size step 0 start (by omega)] at h
    exact absurd h (by simp)
  | succ f ih =>
    intro start hf
    by_cases hs : start < doc.length
    · by_cases hmid : start + size < doc.length
      · rw [buildChunksFuel_cons doc size step f start hs hmid]
        intro k h
        cases k with
        | zero =>
          have hne : buildChunksFuel doc size step f (start + step) ≠ [] :=
            buildChunksFuel_ne_nil doc size step f (start + step) (by omega) (by omega)
          have hlen : 0 < (buildChunksFuel doc size step f (start + step)).length :=
            List.length_pos.mpr hne
          simp only [List.length_cons, Nat.zero_mul, Nat.add_zero]
          omega
        | succ j =>
          have hj : j < (buildChunksFuel doc size step f (start + step)).length := by
            simpa using h
          have hrec := ih (start + step) (by omega) j hj
          have ha : start + (j + 1) * step = start + step + j * step := by ring
          simp only [List.length_cons]
          rw [ha]
          omega
      · rw [buildChunksFuel_last doc size step f start hs hmid]
        intro k h
        have hk : k = 0 := by simpa using h
        subst hk
        exact ⟨fun _ => rfl, fun _ => by omega⟩
    · rw [buildChunksFuel_stop doc size step (f + 1) start hs]
      intro k h
      exact absurd h (by simp)

/-- When the whole remaining document fits in one chunk, exactly that chunk is
produced. -/
lemma buildChunksFuel_single (doc : List Char) (size step fuel start : Nat)
    (hs : start < doc.length) (hbig : doc.length ≤ start + size) (hf : 1 ≤ fuel) :
    buildChunksFuel doc size step fuel start = [(doc.drop start).take size] := by
  cases fuel with
  | zero => omega
  | succ f => exact buildChunksFuel_last doc size step f start hs (by omega)

/-- Chunk count from offset `start`, as a ceiling division, valid as soon as
more than `size - step` (the overlap) characters remain. -/
lemma buildChunksFuel_length (doc : List Char) (size step : Nat) (hstep : 0 < step)
    (hss : step ≤ size) :
    ∀ fuel start, doc.length - start ≤ fuel → size - step < doc.length - start →
      (buildChunksFuel doc size step fuel start).length =
        ((doc.length - start) - (size - step) + step - 1) / step := by
  intro fuel
  induction fuel with
  | zero =>
    intro start hf hov
    omega
  | succ f ih =>
    intro start hf hov
    have hs : start < doc.length := by omega
    by_cases hmid : start + size < doc.length
    · rw [buildChunksFuel_cons doc size step f start hs hmid]
      have hov2 : size - step < doc.length - (start + step) := by omega
      rw [List.length_cons, ih (start + step) (by omega) hov2]
      have e1 : (doc.length - (start + step)) - (size - step) + step - 1 =
          (doc.length - start) - (size - step) - 1 := by omega
      have e2 : (doc.length - start) - (size - step) + step - 1 =
          ((doc.length - start) - (size - step) - 1) + step := by omega
      rw [e1, e2, Nat.add_div_right _ hstep]
    · rw [buildChunksFuel_last doc size step f start hs hmid]
      have e2 : (doc.length - start) - (size - step) + step - 1 =
          ((doc.length - start) - (size - step) - 1) + step := by omega
      have e3 : (doc.length - start) - (size - step) - 1 < step := by omega
      rw [e2, Nat.add_div_right _ hstep, Nat.div_eq_of_lt e3]
      rfl

/-- Concatenating each non-final chunk's first `step` characters and the final
chunk in full, at the level of character lists. -/
def reconstructChars (step : Nat) : List (List Char) → List Char
  | [] => []
  | [c] => c
  | c :: c2 :: rest => c.take step ++ reconstructChars step (c2 :: rest)

/-- The reconstruction property: stitching the chunks back together restores
the document suffix the loop was run on. -/
lemma reconstructChars_buildChunksFuel (doc : List Char) (size step : Nat)
    (hstep : 0 < step) (hss : step ≤ size) :
    ∀ fuel start, doc.length - start ≤ fuel →
      reconstructChars step (buildChunksFuel doc size step fuel start) = doc.drop start := by
  intro fuel
  induction fuel with
  | zero =>
    intro start hf
    rw [buildChunksFuel_stop doc size step 0 start (by omega)]
    exact (List.drop_eq_nil_of_le (by omega)).symm
  | succ f ih =>
    intro start hf
    by_cases hs : start < doc.length
    · by_cases hmid : start + size < doc.length
      · rw [buildChunksFuel_cons doc size step f start hs hmid]
        have hne : buildChunksFuel doc size step f (start + step) ≠ [] :=
          buildChunksFuel_ne_nil doc size step f (start + step) (by omega) (by omega)
        obtain ⟨c2, rest, hrw⟩ : ∃ c2 rest,
            buildChunksFuel doc size step f (start + step) = c2 :: rest := by
          cases hcase : buildChunksFuel doc size step f (start + step) with
          | nil => exact absurd hcase hne
          | cons c2 rest => exact ⟨c2, rest, rfl⟩
        rw [hrw]
        show ((doc.drop start).take size).take step ++ reconstructChars step (c2 :: rest) =
          doc.drop start
        rw [← hrw, ih (start + step) (by omega), List.take_take,
          Nat.min_eq_left hss]
        have hdd : doc.drop (start + step) = (doc.drop start).drop step := by
          rw [List.drop_drop, Nat.add_comm]
        rw [hdd, List.take_append_drop]
      · rw [buildChunksFuel_last doc size step f start hs hmid]
        show (doc.drop start).take size = doc.drop start
        exact List.take_of_length_le (by rw [List.length_drop]; omega)
    · rw [buildChunksFuel_stop doc size step (f + 1) start hs]
      exact (List.drop_eq_nil_of_le (by omega)).symm

/-- On a valid configuration the chunker takes its chunk-producing branch. -/
lemma splitText_eq_chunks (text : String) (chunk_size chunk_overlap : Int)
    (h1 : 0 < chunk_size) (h3 : chunk_overlap < chunk_size) :
    splitText text chunk_size chunk_overlap =
      SplitResult.chunks
        ((buildChunks text.data chunk_size.toNat (chunk_size - chunk_overlap).toNat).map
          String.mk) := by
  unfold splitText
  rw [if_neg (by omega)]

/-- The chunk-count formula exactly as the spec's testable property words it:
`ceil(max(0, len(D) - overlap) / step)` with `step = chunk_size - chunk_overlap`
for a non-empty document, and 0 for the empty document.  The ceiling of
`a / b` for `0 ≤ a` and `0 < b` is rendered as `(a + b - 1) / b`. -/
def specChunkCount (docLen : Nat) (chunk_size chunk_overlap : Int) : Int :=
  if docLen = 0 then 0
  else (max 0 ((docLen : Int) - chunk_overlap) + (chunk_size - chunk_overlap) - 1) /
    (chunk_size - chunk_overlap)

/-- Concatenating each non-final chunk's first `step` characters and the final
chunk in full, at the level of the produced strings. -/
def reconstruct (step : Nat) : List String → String
  | [] => ""
  | [c] => c
  | c :: c2 :: rest => String.mk (c.data.take step) ++ reconstruct step (c2 :: rest)

lemma reconstruct_map_mk (step : Nat) :
    ∀ ls : List (List Char),
      reconstruct step (ls.map String.mk) = String.mk (reconstructChars step ls)
  | [] => rfl
  | [_] => rfl
  | c :: c2 :: rest => by
    show String.mk (c.take step) ++ reconstruct step ((c2 :: rest).map String.mk) =
      String.mk (c.take step ++ reconstructChars step (c2 :: rest))
    rw [reconstruct_map_mk step (c2 :: rest)]
    rfl

/-! ## Token estimator, modelled from the spec -/

/-- Modelled from the spec: for a fixed registry of `{model_name: max_tokens}`
pairs, the model names whose context window accommodates `count` tokens. -/
def compatibleModels (registry : List (String × Nat)) (count : Nat) : List String :=
  (registry.filter (fun p => decide (count ≤ p.2))).map Prod.fst

/-- Modelled from the spec: the token estimator contract
`estimate(text, model) -> (count, compatible_models)`.  The counting capability
`countFn` is pluggable (exact tokenizer adapter or heuristic fallback), the
registry is the fixed `{model_name: max_tokens}` table. -/
def estimateTokens (registry : List (String × Nat)) (countFn : String → String → Nat)
    (text model : String) : Nat × List String :=
  (countFn text model, compatibleModels registry (countFn text model))

/-! ## Frontend request handlers, embedded from the JSX sources -/

/-- JSON values as assembled by the frontend's `JSON.stringify` calls. -/
inductive Json where
  | str (s : String) : Json
  | num (n : Int) : Json
  | arr (elems : List Json) : Json
  | obj (fields : List (String × Json)) : Json

/-- A `fetch` request as issued by the frontend handlers. -/
structure HttpRequest where
  url : String
  method : String
  contentType : String
  body : Json

/-- Embedded from `TextSplitter.handleSplit`: the request the split tab issues
for the entered text and the parsed integer chunk parameters. -/
def handleSplit (text : String) (chunk_size chunk_overlap : Int) : HttpRequest :=
  { url := "http://localhost:8000/api/split"
    method := "POST"
    contentType := "application/json"
    body := Json.obj
      [("text", Json.str text), ("chunk_size", Json.num chunk_size),
        ("chunk_overlap", Json.num chunk_overlap)] }

/-- The path component of the frontend's absolute request URLs: everything
after the `http://localhost:8000` origin. -/
def urlPath (u : String) : String :=
  String.mk (u.data.drop ("http://localhost:8000".length))

/-- Modelled from the spec: the response body of the backend `POST /split`
endpoint (the backend itself is not in the repository) — `{ chunks: [string] }`
for an accepted configuration, no chunk payload for a rejected one. -/
def splitResponse (text : String) (chunk_size chunk_overlap : Int) : Option Json :=
  match splitText text chunk_size chunk_overlap with
  | SplitResult.invalidConfiguration => none
  | SplitResult.chunks l => some (Json.obj [("chunks", Json.arr (l.map Json.str))])

/-- One step of a frontend handler: a simulated delay or an HTTP send. -/
inductive ClientStep where
  | wait (ms : Nat) : ClientStep
  | send (req : HttpRequest) : ClientStep

/-- Embedded from `ProcessingDemo.handleProcess`: first the simulated 2000 ms
delay, then the POST whose `text` field is the constant `"Demo text"` and whose
`api_key` field is the entered key. -/
def handleProcess (apiKey : String) : List ClientStep :=
  [ClientStep.wait 2000,
    ClientStep.send
      { url := "http://localhost:8000/api/process"
        method := "POST"
        contentType := "application/json"
        body := Json.obj [("text", Json.str "Demo text"), ("api_key", Json.str apiKey)] }]

/-- Forget the `api_key` field of a request body, keeping everything else. -/
def eraseApiKey : Json → Json
  | Json.obj fields => Json.obj (fields.filter (fun f => decide (f.1 ≠ "api_key")))
  | j => j

/-- Apply `eraseApiKey` to the body of a send step. -/
def stepEraseApiKey : ClientStep → ClientStep
  | ClientStep.send req => ClientStep.send { req with body := eraseApiKey req.body }
  | st => st

/-! ## Claim theorems -/

/-- C3: the chunker fails with an `InvalidConfiguration` error if and only if
`chunk_overlap ≥ chunk_size` or `chunk_size ≤ 0`; on such inputs it returns
that error rather than producing chunks (and, being a total function, it never
diverges). -/
theorem chunker_invalid_configuration_iff (D : String) (chunk_size chunk_overlap : Int) :
    splitText D chunk_size chunk_overlap = SplitResult.invalidConfiguration ↔
      (chunk_overlap ≥ chunk_size ∨ chunk_size ≤ 0) := by
  unfold splitText
  split
  next hcond => exact iff_of_true rfl hcond
  next hcond => exact iff_of_false (by simp) hcond

/-- C5: with a valid configuration, a document no longer than `chunk_size` is
returned as the single chunk equal to the whole document, and the empty
document yields the empty chunk sequence. -/
theorem chunker_small_document (D : String) (chunk_size chunk_overlap : Int)
    (h1 : 0 < chunk_size) (h2 : 0 ≤ chunk_overlap) (h3 : chunk_overlap < chunk_size)
    (hsmall : (D.length : Int) ≤ chunk_size) :
    splitText D chunk_size chunk_overlap =
      SplitResult.chunks (if D = "" then [] else [D]) := by
  rw [splitText_eq_chunks D chunk_size chunk_overlap h1 h3]
  by_cases hD : D = ""
  · subst hD
    rw [if_pos rfl]
    unfold buildChunks
    have hd : ("" : String).data = ([] : List Char) := rfl
    rw [hd, buildChunksFuel_stop _ _ _ _ _ (by simp)]
    rfl
  · rw [if_neg hD]
    have hne : D.data ≠ [] := by
      intro hd
      apply hD
      cases D with
      | mk d => cases hd; rfl
    have hlen : 0 < D.data.length := List.length_pos.mpr hne
    have hsmall2 : (D.data.length : Int) ≤ chunk_size := hsmall
    unfold buildChunks
    rw [buildChunksFuel_single D.data chunk_size.toNat (chunk_size - chunk_overlap).toNat
      D.data.length 0 hlen (by omega) (by omega)]
    rw [List.drop_zero, List.take_of_length_le (by omega)]
    rfl

/-- C6: with a valid configuration the chunker terminates and returns a
finite, fully materialized list of chunks; the loop stops on its own, in that
any recursion bound of at least the document length produces that same list. -/
theorem chunker_terminates_materialized (D : String) (chunk_size chunk_overlap : Int)
    (h1 : 0 < chunk_size) (h2 : 0 ≤ chunk_overlap) (h3 : chunk_overlap < chunk_size) :
    ∃ l, splitText D chunk_size chunk_overlap = SplitResult.chunks l ∧
      ∀ fuel, D.length ≤ fuel →
        (buildChunksFuel D.data chunk_size.toNat (chunk_size - chunk_overlap).toNat
          fuel 0).map String.mk = l := by
  refine ⟨_, splitText_eq_chunks D chunk_size chunk_overlap h1 h3, ?_⟩
  intro fuel hfuel
  unfold buildChunks
  congr 1
  have hfuel2 : D.data.length ≤ fuel := hfuel
  exact buildChunksFuel_congr D.data chunk_size.toNat (chunk_size - chunk_overlap).toNat
    (by omega) fuel D.data.length 0 (by omega) (by omega)

/-- C8: chunking and token estimation are deterministic pure functions — two
runs on equal inputs return equal outputs, and the embedded operations carry
no state at all. -/
theorem operations_deterministic
    (D₁ D₂ : String) (size₁ size₂ overlap₁ overlap₂ : Int)
    (registry₁ registry₂ : List (String × Nat)) (countFn₁ countFn₂ : String → String → Nat)
    (t₁ t₂ m₁ m₂ : String)
    (hD : D₁ = D₂) (hsz : size₁ = size₂) (ho : overlap₁ = overlap₂)
    (hr : registry₁ = registry₂) (hc : countFn₁ = countFn₂) (ht : t₁ = t₂) (hm : m₁ = m₂) :
    splitText D₁ size₁ overlap₁ = splitText D₂ size₂ overlap₂ ∧
      estimateTokens registry₁ countFn₁ t₁ m₁ = estimateTokens registry₂ countFn₂ t₂ m₂ := by
  subst hD hsz ho hr hc ht hm
  exact ⟨rfl, rfl⟩

/-- Witness for C8 at a concrete pair of equal runs. -/
theorem operations_deterministic_witness :
    splitText "ab" 2 1 = splitText "ab" 2 1 ∧
      estimateTokens [("gpt-4", 8192)] (fun t _ => t.length / 4) "abcd" "gpt-4" =
        estimateTokens [("gpt-4", 8192)] (fun t _ => t.length / 4) "abcd" "gpt-4" :=
  operations_deterministic "ab" "ab" 2 2 1 1 [("gpt-4", 8192)] [("gpt-4", 8192)]
    (fun t _ => t.length / 4) (fun t _ => t.length / 4) "abcd" "abcd" "gpt-4" "gpt-4"
    rfl rfl rfl rfl rfl rfl rfl

/-- C10: for every entered api key, the processing tab's handler first waits
the fixed simulated 2000 ms delay and then posts a body whose `text` field is
the constant `"Demo text"`; with the `api_key` field erased, the issued steps
are identical for any two keys, so the key is the only user-controlled part of
the request. -/
theorem process_handler_constant_text (apiKey otherKey : String) :
    handleProcess apiKey =
      [ClientStep.wait 2000,
        ClientStep.send
          { url := "http://localhost:8000/api/process"
            method := "POST"
            contentType := "application/json"
            body := Json.obj
              [("text", Json.str "Demo text"), ("api_key", Json.str apiKey)] }] ∧
      (handleProcess apiKey).map stepEraseApiKey =
        (handleProcess otherKey).map stepEraseApiKey := by
  exact ⟨rfl, rfl⟩

/-- C2: with a valid configuration, concatenating each non-final chunk's first
`chunk_size - chunk_overlap` characters plus the final chunk in full
reconstructs the document exactly. -/
theorem chunker_reconstructs_document (D : String) (chunk_size chunk_overlap : Int)
    (h1 : 0 < chunk_size) (h2 : 0 ≤ chunk_overlap) (h3 : chunk_overlap < chunk_size)
    (l : List String) (hl : splitText D chunk_size chunk_overlap = SplitResult.chunks l) :
    reconstruct (chunk_size - chunk_overlap).toNat l = D := by
  rw [splitText_eq_chunks D chunk_size chunk_overlap h1 h3] at hl
  injection hl with hl
  subst hl
  unfold buildChunks
  rw [reconstruct_map_mk,
    reconstructChars_buildChunksFuel D.data chunk_size.toNat
      (chunk_size - chunk_overlap).toNat (by omega) (by omega) D.data.length 0 (by omega),
    List.drop_zero]

/-- Witness for C2 on the spec's worked example. -/
theorem chunker_reconstructs_document_witness :
    splitText "ABCDEFGHIJ" 4 1 = SplitResult.chunks ["ABCD", "DEFG", "GHIJ"] ∧
      reconstruct ((4 : Int) - 1).toNat ["ABCD", "DEFG", "GHIJ"] = "ABCDEFGHIJ" :=
  ⟨by decide,
    chunker_reconstructs_document "ABCDEFGHIJ" 4 1 (by decide) (by decide) (by decide)
      ["ABCD", "DEFG", "GHIJ"] (by decide)⟩

/-- C7: the token estimator returns the computed count together with exactly
the registry model names whose `max_tokens` accommodates that count; on the
spec's example registry a count of 5000 is compatible with `claude-3` only. -/
theorem token_estimator_compatible_models (registry : List (String × Nat))
    (countFn : String → String → Nat) (text model : String) :
    (estimateTokens registry countFn text model).1 = countFn text model ∧
    (∀ name, name ∈ (estimateTokens registry countFn text model).2 ↔
      ∃ maxTokens, (name, maxTokens) ∈ registry ∧ countFn text model ≤ maxTokens) ∧
    compatibleModels [("gpt-3.5-turbo", 4096), ("claude-3", 200000)] 5000 =
      ["claude-3"] := by
  refine ⟨rfl, ?_, by decide⟩
  intro name
  simp only [estimateTokens, compatibleModels, List.mem_map, List.mem_filter,
    decide_eq_true_eq]
  constructor
  · rintro ⟨⟨n, mx⟩, ⟨hmem, hle⟩, hname⟩
    cases hname
    exact ⟨mx, hmem, hle⟩
  · rintro ⟨mx, hmem, hle⟩
    exact ⟨(name, mx), ⟨hmem, hle⟩, rfl⟩

/-- Witness for C5 on the spec's short-document example. -/
theorem chunker_small_document_witness :
    (0 : Int) < 10 ∧
      splitText "AB" 10 5 = SplitResult.chunks (if "AB" = "" then [] else ["AB"]) :=
  ⟨by decide,
    chunker_small_document "AB" 10 5 (by decide) (by decide) (by decide) (by decide)⟩

/-- Witness for C6 on the spec's worked example. -/
theorem chunker_terminates_materialized_witness :
    (0 : Int) < 4 ∧
      ∃ l, splitText "ABCDEFGHIJ" 4 1 = SplitResult.chunks l ∧
        ∀ fuel, "ABCDEFGHIJ".length ≤ fuel →
          (buildChunksFuel "ABCDEFGHIJ".data (4 : Int).toNat ((4 : Int) - 1).toNat
            fuel 0).map String.mk = l :=
  ⟨by decide,
    chunker_terminates_materialized "ABCDEFGHIJ" 4 1 (by decide) (by decide) (by decide)⟩

/-- C1: with a valid configuration, the `k`-th chunk (0-indexed) is the
substring starting at offset `k * (chunk_size - chunk_overlap)` and ending at
`min(start + chunk_size, len(D))`; the ending offset reaches the document
length exactly at the final chunk, where production stops; and the spec's
worked example splits as stated. -/
theorem chunker_chunk_offsets (D : String) (chunk_size chunk_overlap : Int)
    (h1 : 0 < chunk_size) (h2 : 0 ≤ chunk_overlap) (h3 : chunk_overlap < chunk_size) :
    ∃ cs, splitText D chunk_size chunk_overlap = SplitResult.chunks cs ∧
      (∀ k (hk : k < cs.length),
        cs.get ⟨k, hk⟩ = String.mk
          ((D.data.take (min (k * (chunk_size - chunk_overlap).toNat + chunk_size.toNat)
            D.length)).drop (k * (chunk_size - chunk_overlap).toNat))) ∧
      (∀ k (hk : k < cs.length),
        (min (k * (chunk_size - chunk_overlap).toNat + chunk_size.toNat) D.length = D.length
          ↔ k = cs.length - 1)) ∧
      splitText "ABCDEFGHIJ" 4 1 = SplitResult.chunks ["ABCD", "DEFG", "GHIJ"] := by
  have hDlen : D.length = D.data.length := rfl
  refine ⟨_, splitText_eq_chunks D chunk_size chunk_overlap h1 h3, ?_, ?_, by decide⟩
  · simp only [hDlen, buildChunks, List.get_eq_getElem, List.length_map, List.getElem_map]
    intro k hk
    congr 1
    have hget := buildChunksFuel_get D.data chunk_size.toNat
      (chunk_size - chunk_overlap).toNat (by omega) D.data.length 0 (by omega) k hk
    rw [Nat.zero_add] at hget
    have e1 := List.drop_take
      (min (k * (chunk_size - chunk_overlap).toNat + chunk_size.toNat) D.data.length)
      (k * (chunk_size - chunk_overlap).toNat) D.data
    have e2 : (D.data.drop (k * (chunk_size - chunk_overlap).toNat)).take
        (min (k * (chunk_size - chunk_overlap).toNat + chunk_size.toNat) D.data.length -
          k * (chunk_size - chunk_overlap).toNat) =
        (D.data.drop (k * (chunk_size - chunk_overlap).toNat)).take chunk_size.toNat := by
      rw [List.take_eq_take, List.length_drop]
      omega
    exact hget.trans (e1.trans e2).symm
  · simp only [hDlen, buildChunks, List.length_map]
    intro k hk
    have hiff := buildChunksFuel_lastIff D.data chunk_size.toNat
      (chunk_size - chunk_overlap).toNat (by omega) (by omega) D.data.length 0
      (by omega) k hk
    omega

/-- Witness for C1 on the spec's worked example. -/
theorem chunker_chunk_offsets_witness :
    (0 : Int) < 4 ∧
      ∃ cs, splitText "ABCDEFGHIJ" 4 1 = SplitResult.chunks cs ∧
        (∀ k (hk : k < cs.length),
          cs.get ⟨k, hk⟩ = String.mk
            (("ABCDEFGHIJ".data.take (min (k * ((4 : Int) - 1).toNat + (4 : Int).toNat)
              "ABCDEFGHIJ".length)).drop (k * ((4 : Int) - 1).toNat))) ∧
        (∀ k (hk : k < cs.length),
          (min (k * ((4 : Int) - 1).toNat + (4 : Int).toNat) "ABCDEFGHIJ".length =
              "ABCDEFGHIJ".length ↔ k = cs.length - 1)) ∧
        splitText "ABCDEFGHIJ" 4 1 = SplitResult.chunks ["ABCD", "DEFG", "GHIJ"] :=
  ⟨by decide, chunker_chunk_offsets "ABCDEFGHIJ" 4 1 (by decide) (by decide) (by decide)⟩

/-- C4 counterexample: on the valid configuration `chunk_size = 10`,
`chunk_overlap = 5` and the two-character document `"AB"`, the chunker yields
one chunk while the claimed formula `ceil(max(0, len - overlap) / step)`
yields 0. -/
theorem chunk_count_formula_cex :
    splitText "AB" 10 5 = SplitResult.chunks ["AB"] ∧
      specChunkCount "AB".length 10 5 = 0 ∧
      ((1 : Int) ≠ specChunkCount "AB".length 10 5) := by decide

/-- C4 as amended: the chunk count equals the spec's formula whenever the
document is longer than the overlap, while a non-empty document no longer than
the overlap yields exactly one chunk and the empty document zero. -/
theorem chunk_count_amended (D : String) (chunk_size chunk_overlap : Int)
    (h1 : 0 < chunk_size) (h2 : 0 ≤ chunk_overlap) (h3 : chunk_overlap < chunk_size)
    (l : List String) (hl : splitText D chunk_size chunk_overlap = SplitResult.chunks l) :
    (l.length : Int) =
      if D.length = 0 then 0
      else if (D.length : Int) ≤ chunk_overlap then 1
      else specChunkCount D.length chunk_size chunk_overlap := by
  have hDlen : D.length = D.data.length := rfl
  rw [hDlen]
  rw [splitText_eq_chunks D chunk_size chunk_overlap h1 h3] at hl
  injection hl with hl
  subst hl
  rw [List.length_map]
  unfold buildChunks
  by_cases hz : D.data.length = 0
  · rw [buildChunksFuel_stop _ _ _ _ _ (by omega), if_pos hz]
    rfl
  · by_cases hsmall : (D.data.length : Int) ≤ chunk_overlap
    · rw [buildChunksFuel_single D.data _ _ _ 0 (by omega) (by omega) (by omega),
        if_neg hz, if_pos hsmall]
      rfl
    · rw [buildChunksFuel_length D.data chunk_size.toNat
        (chunk_size - chunk_overlap).toNat (by omega) (by omega) D.data.length 0
        (by omega) (by omega),
        if_neg hz, if_neg hsmall]
      rw [specChunkCount, if_neg hz,
        max_eq_right (show (0 : Int) ≤ (D.data.length : Int) - chunk_overlap by omega),
        Int.ofNat_ediv]
      congr 1
      · omega
      · omega

/-- Witness for the amended C4 on the spec's worked example. -/
theorem chunk_count_amended_witness :
    splitText "ABCDEFGHIJ" 4 1 = SplitResult.chunks ["ABCD", "DEFG", "GHIJ"] ∧
      ((["ABCD", "DEFG", "GHIJ"].length : Nat) : Int) =
        (if "ABCDEFGHIJ".length = 0 then 0
        else if ("ABCDEFGHIJ".length : Int) ≤ 1 then 1
        else specChunkCount "ABCDEFGHIJ".length 4 1) :=
  ⟨by decide,
    chunk_count_amended "ABCDEFGHIJ" 4 1 (by decide) (by decide) (by decide)
      ["ABCD", "DEFG", "GHIJ"] (by decide)⟩

/-- C9 counterexample: the frontend's split handler posts to the path
`/api/split`, not `/split`. -/
theorem split_request_path_cex :
    urlPath (handleSplit "a" 1 0).url = "/api/split" ∧
      urlPath (handleSplit "a" 1 0).url ≠ "/split" := by decide

/-- C9 as amended: every request the frontend's split handler issues is a POST
to the path `/api/split` with body `{ text, chunk_size, chunk_overlap }`, and
for a valid configuration the modelled backend responds with a body of the
shape `{ chunks: [string] }`. -/
theorem split_request_amended (text : String) (chunk_size chunk_overlap : Int)
    (h1 : 0 < chunk_size) (h2 : 0 ≤ chunk_overlap) (h3 : chunk_overlap < chunk_size) :
    (handleSplit text chunk_size chunk_overlap).method = "POST" ∧
    urlPath (handleSplit text chunk_size chunk_overlap).url = "/api/split" ∧
    (handleSplit text chunk_size chunk_overlap).body = Json.obj
      [("text", Json.str text), ("chunk_size", Json.num chunk_size),
        ("chunk_overlap", Json.num chunk_overlap)] ∧
    ∃ l, splitText text chunk_size chunk_overlap = SplitResult.chunks l ∧
      splitResponse text chunk_size chunk_overlap =
        some (Json.obj [("chunks", Json.arr (l.map Json.str))]) := by
  have hurl : (handleSplit text chunk_size chunk_overlap).url =
      "http://localhost:8000/api/split" := rfl
  refine ⟨rfl, by rw [hurl]; decide, rfl, ?_⟩
  refine ⟨_, splitText_eq_chunks text chunk_size chunk_overlap h1 h3, ?_⟩
  unfold splitResponse
  rw [splitText_eq_chunks text chunk_size chunk_overlap h1 h3]

/-- Witness for the amended C9 at a concrete request. -/
theorem split_request_amended_witness :
    (0 : Int) < 1 ∧
      ((handleSplit "a" 1 0).method = "POST" ∧
      urlPath (handleSplit "a" 1 0).url = "/api/split" ∧
      (handleSplit "a" 1 0).body = Json.obj
        [("text", Json.str "a"), ("chunk_size", Json.num 1),
          ("chunk_overlap", Json.num 0)] ∧
      ∃ l, splitText "a" 1 0 = SplitResult.chunks l ∧
        splitResponse "a" 1 0 =
          some (Json.obj [("chunks", Json.arr (l.map Json.str))])) :=
  ⟨by decide, split_request_amended "a" 1 0 (by decide) (by decide) (by decide)⟩

end ContextWindow
